import Mathlib

/-!
Verification of the snapshot-based incremental RAG indexing engine of the
BranchCoder VS Code extension.

The definitions below are a shallow embedding of the TypeScript sources:
`src/src/snapshot.ts` (snapshot creation, diffing and persistence) and the
extension entry point (`src/unnamed/part_016`: the update scheduler, the
debounced file watcher, `updateRAG`, and the startup catch-up logic).
Machine words are modelled as `Nat` reduced modulo `2 ^ 32`; JavaScript
`Map`s are modelled as insertion-ordered association lists; fallible
operations return `Option`.
-/

set_option maxRecDepth 4000000

set_option maxHeartbeats 1000000

namespace BranchCoder

/-! ## MD5 (the hash used by `crypto.createHash('md5')` in snapshot.ts) -/

/-- 32-bit truncating addition. -/
def add32 (a b : Nat) : Nat := (a + b) % 4294967296

/-- 32-bit bitwise complement (arguments are kept below `2 ^ 32`). -/
def not32 (a : Nat) : Nat := 4294967295 - a % 4294967296

/-- 32-bit left rotation by `s` (`0 ≤ s < 32`). -/
def rotl32 (x s : Nat) : Nat :=
  ((x % 4294967296) * 2 ^ s + (x % 4294967296) / 2 ^ (32 - s)) % 4294967296

/-- Round function F (rounds 0–15). -/
def md5F (b c d : Nat) : Nat := (b &&& c) ||| (not32 b &&& d)

/-- Round function G (rounds 16–31). -/
def md5G (b c d : Nat) : Nat := (d &&& b) ||| (not32 d &&& c)

/-- Round function H (rounds 32–47). -/
def md5H (b c d : Nat) : Nat := b ^^^ c ^^^ d

/-- Round function I (rounds 48–63). -/
def md5I (b c d : Nat) : Nat := c ^^^ (b ||| not32 d)

/-- The 64 MD5 sine-derived constants `⌊|sin(i+1)| · 2^32⌋`. -/
def md5K : List Nat :=
  [0xd76aa478, 0xe8c7b756, 0x242070db, 0xc1bdceee,
   0xf57c0faf, 0x4787c62a, 0xa8304613, 0xfd469501,
   0x698098d8, 0x8b44f7af, 0xffff5bb1, 0x895cd7be,
   0x6b901122, 0xfd987193, 0xa679438e, 0x49b40821,
   0xf61e2562, 0xc040b340, 0x265e5a51, 0xe9b6c7aa,
   0xd62f105d, 0x02441453, 0xd8a1e681, 0xe7d3fbc8,
   0x21e1cde6, 0xc33707d6, 0xf4d50d87, 0x455a14ed,
   0xa9e3e905, 0xfcefa3f8, 0x676f02d9, 0x8d2a4c8a,
   0xfffa3942, 0x8771f681, 0x6d9d6122, 0xfde5380c,
   0xa4beea44, 0x4bdecfa9, 0xf6bb4b60, 0xbebfbc70,
   0x289b7ec6, 0xeaa127fa, 0xd4ef3085, 0x04881d05,
   0xd9d4d039, 0xe6db99e5, 0x1fa27cf8, 0xc4ac5665,
   0xf4292244, 0x432aff97, 0xab9423a7, 0xfc93a039,
   0x655b59c3, 0x8f0ccc92, 0xffeff47d, 0x85845dd1,
   0x6fa87e4f, 0xfe2ce6e0, 0xa3014314, 0x4e0811a1,
   0xf7537e82, 0xbd3af235, 0x2ad7d2bb, 0xeb86d391]

/-- The 64 per-round left-rotation amounts. -/
def md5S : List Nat :=
  [7, 12, 17, 22, 7, 12, 17, 22, 7, 12, 17, 22, 7, 12, 17, 22,
   5, 9, 14, 20, 5, 9, 14, 20, 5, 9, 14, 20, 5, 9, 14, 20,
   4, 11, 16, 23, 4, 11, 16, 23, 4, 11, 16, 23, 4, 11, 16, 23,
   6, 10, 15, 21, 6, 10, 15, 21, 6, 10, 15, 21, 6, 10, 15, 21]

/-- One MD5 compression round `i` on state `(A, B, C, D)` with message block `M`. -/
def md5RoundStep (M : List Nat) (st : Nat × Nat × Nat × Nat) (i : Nat) :
    Nat × Nat × Nat × Nat :=
  let (A, B, C, D) := st
  let fg : Nat × Nat :=
    if i < 16 then (md5F B C D, i)
    else if i < 32 then (md5G B C D, (5 * i + 1) % 16)
    else if i < 48 then (md5H B C D, (3 * i + 5) % 16)
    else (md5I B C D, (7 * i) % 16)
  let tmp := add32 (add32 (add32 A fg.1) (md5K.getD i 0)) (M.getD fg.2 0)
  (D, add32 B (rotl32 tmp (md5S.getD i 0)), B, C)

/-- MD5 compression of one 16-word block. -/
def md5Block (st : Nat × Nat × Nat × Nat) (M : List Nat) : Nat × Nat × Nat × Nat :=
  let (a0, b0, c0, d0) := st
  let r := (List.range 64).foldl (md5RoundStep M) (a0, b0, c0, d0)
  (add32 a0 r.1, add32 b0 r.2.1, add32 c0 r.2.2.1, add32 d0 r.2.2.2)

/-- Split a word list into consecutive 16-word blocks (padding makes the length
a multiple of 16, so the trailing partial-block case is unreachable on real input). -/
def chunk16 : List Nat → List (List Nat)
  | w0 :: w1 :: w2 :: w3 :: w4 :: w5 :: w6 :: w7 ::
    w8 :: w9 :: w10 :: w11 :: w12 :: w13 :: w14 :: w15 :: rest =>
      [w0, w1, w2, w3, w4, w5, w6, w7, w8, w9, w10, w11, w12, w13, w14, w15] ::
        chunk16 rest
  | _ => []

/-- Fold the compression function over consecutive 16-word chunks. -/
def md5Chunks (st : Nat × Nat × Nat × Nat) (ws : List Nat) : Nat × Nat × Nat × Nat :=
  (chunk16 ws).foldl md5Block st

/-- Little-endian byte decomposition of `x` into `n` bytes. -/
def toLEBytes (n x : Nat) : List Nat := (List.range n).map fun i => x / 2 ^ (8 * i) % 256

/-- MD5 padding: append `0x80`, zero bytes to 56 mod 64, then the 64-bit bit length. -/
def md5Pad (msg : List Nat) : List Nat :=
  let len := msg.length
  let zeros := (64 + 56 - (len + 1) % 64) % 64
  msg ++ 128 :: List.replicate zeros 0 ++ toLEBytes 8 (8 * len)

/-- Assemble consecutive 4-byte groups into little-endian 32-bit words. -/
def bytesToWords : List Nat → List Nat
  | b0 :: b1 :: b2 :: b3 :: rest =>
      (b0 + 256 * b1 + 65536 * b2 + 16777216 * b3) :: bytesToWords rest
  | _ => []

/-- MD5 digest of a byte sequence, as 16 bytes. -/
def md5Bytes (msg : List Nat) : List Nat :=
  let r := md5Chunks (0x67452301, 0xefcdab89, 0x98badcfe, 0x10325476)
    (bytesToWords (md5Pad msg))
  toLEBytes 4 r.1 ++ toLEBytes 4 r.2.1 ++ toLEBytes 4 r.2.2.1 ++ toLEBytes 4 r.2.2.2

/-- Lower-case hexadecimal digit. -/
def hexDigit (n : Nat) : Char :=
  if n < 10 then Char.ofNat (48 + n) else Char.ofNat (87 + n)

/-- Two-digit lower-case hex rendering of one byte. -/
def byteHex (b : Nat) : List Char := [hexDigit (b / 16), hexDigit (b % 16)]

/-- UTF-8 encoding of a single code point. -/
def utf8EncodeCodePoint (c : Nat) : List Nat :=
  if c < 128 then [c]
  else if c < 2048 then [192 + c / 64, 128 + c % 64]
  else if c < 65536 then [224 + c / 4096, 128 + c / 64 % 64, 128 + c % 64]
  else [240 + c / 262144, 128 + c / 4096 % 64, 128 + c / 64 % 64, 128 + c % 64]

/-- UTF-8 byte sequence of a string (what Node hashes for a string input). -/
def strBytes (s : String) : List Nat :=
  s.data.foldr (fun c acc => utf8EncodeCodePoint c.toNat ++ acc) []

/-- Lower-case hex MD5 digest of a string — `crypto.createHash('md5').update(s).digest('hex')`. -/
def md5hex (s : String) : String :=
  String.mk ((md5Bytes (strBytes s)).foldr (fun b acc => byteHex b ++ acc) [])

/-! ## POSIX paths (Node `path.resolve` / `path.join` / `path.extname`) -/

/-- Split a character list on a separator (the semantics of JS
`String.prototype.split` with a one-character separator). -/
def splitChar (sep : Char) (l : List Char) : List (List Char) :=
  l.foldr
    (fun c acc =>
      match acc with
      | [] => [[c]]
      | cur :: rest => if c = sep then [] :: cur :: rest else (c :: cur) :: rest)
    [[]]

/-- One step of POSIX path normalization: `""` and `"."` segments vanish,
`".."` pops the last segment (staying at the root when empty). -/
def resolveStep (stack : List (List Char)) (part : List Char) : List (List Char) :=
  if part = [] ∨ part = ['.'] then stack
  else if part = ['.', '.'] then stack.dropLast
  else stack ++ [part]

/-- Join segments with `/` separators. -/
def interSlash : List (List Char) → List Char
  | [] => []
  | [x] => x
  | x :: y :: rest => x ++ '/' :: interSlash (y :: rest)

/-- Node `path.resolve(p)` for POSIX paths; `cwd` models `process.cwd()`,
against which a relative `p` is resolved. -/
def resolvePosix (cwd p : String) : String :=
  let full := if p.data.head? = some '/' then p.data else cwd.data ++ '/' :: p.data
  String.mk ('/' :: interSlash ((splitChar '/' full).foldl resolveStep []))

/-- Node `path.join` of two ordinary segments. -/
def joinPath (a b : String) : String := a ++ "/" ++ b

/-- `String.substring(0, n)` (character-level prefix; digests are ASCII). -/
def takeChars (s : String) (n : Nat) : String := String.mk (s.data.take n)

/-- `getWorkspaceStoragePath` from snapshot.ts: MD5 of the resolved workspace
path, truncated to 12 hex characters, keys a directory under
`<extensionPath>/python/.rag_store`. -/
def getWorkspaceStoragePath (cwd workspaceDir extensionPath : String) : String :=
  let workspacePath := resolvePosix cwd workspaceDir
  let hash := takeChars (md5hex workspacePath) 12
  let pythonDir := joinPath extensionPath "python"
  let ragStoreDir := joinPath pythonDir ".rag_store"
  joinPath ragStoreDir ("workspace_" ++ hash)

/-- Basename: the part after the last `/`. -/
def basenameOf (p : String) : List Char := (splitChar '/' p.data).getLastD []

/-- Node `path.extname`: the final dot-suffix of the basename; empty for
dotless names and for a leading-dot-only name such as `.bashrc`. -/
def extname (p : String) : String :=
  match splitChar '.' (basenameOf p) with
  | [] => ""
  | [_] => ""
  | first :: rest =>
      if first = [] ∧ rest.length = 1 then ""
      else String.mk ('.' :: rest.getLastD [])

/-- `String.toLowerCase`. -/
def lowerStr (s : String) : String := String.mk (s.data.map Char.toLower)

/-! ## Snapshots (`src/src/snapshot.ts`) -/

/-- `FileSnapshot` from snapshot.ts. -/
structure FileSnapshot where
  path : String
  hash : String
  mtime : Option Nat
deriving DecidableEq, Repr

/-- `Snapshot` from snapshot.ts; the `Map` is an insertion-ordered
association list. -/
structure Snapshot where
  files : List (String × FileSnapshot)
  timestamp : Nat
deriving DecidableEq, Repr

/-- `Map.get`: the first binding for `p`, if any. -/
def Snapshot.get (s : Snapshot) (p : String) : Option FileSnapshot :=
  (s.files.find? fun e => e.1 == p).map Prod.snd

/-- `Map.has`. -/
def Snapshot.hasPath (s : Snapshot) (p : String) : Bool := (s.get p).isSome

/-- A snapshot is well-formed when its paths are duplicate-free, as a JS `Map`
always is. -/
def Snapshot.WF (s : Snapshot) : Prop := (s.files.map Prod.fst).Nodup

instance (s : Snapshot) : Decidable s.WF := by unfold Snapshot.WF; infer_instance

/-- The result record of `compareSnapshots`. -/
structure SnapshotDiff where
  added : List String
  deleted : List String
  changed : List String
deriving DecidableEq, Repr

/-- `compareSnapshots` from snapshot.ts: one pass over the new files pushes
unknown paths to `added` and hash-differing paths to `changed` (same-hash
paths are skipped); one pass over the old files pushes missing paths to
`deleted`. -/
def compareSnapshots (oldSnapshot newSnapshot : Snapshot) : SnapshotDiff :=
  let added := (newSnapshot.files.filter fun e => (oldSnapshot.get e.1).isNone).map Prod.fst
  let changed := newSnapshot.files.filterMap fun e =>
    match oldSnapshot.get e.1 with
    | none => none
    | some oldFile => if oldFile.hash ≠ e.2.hash then some e.1 else none
  let deleted := (oldSnapshot.files.filter fun e => ! newSnapshot.hasPath e.1).map Prod.fst
  { added := added, deleted := deleted, changed := changed }

/-- The extension filter of `createSnapshot`. -/
def codeExtensions : List String :=
  [".py", ".js", ".ts", ".tsx", ".jsx", ".java", ".cpp", ".c", ".h",
   ".hpp", ".go", ".rs", ".rb", ".php", ".swift", ".kt", ".scala"]

/-- `isCodeFile` — also the filter applied inside `createSnapshot`. -/
def isCodeFile (p : String) : Bool := codeExtensions.contains (lowerStr (extname p))

/-- One workspace file as seen by the snapshot scanner: its relative path, its
content when readable (`none` models a read failure, i.e. `computeFileHash`
returning `null`), and its modification time when `stat` succeeds. -/
structure ScanFile where
  path : String
  content : Option String
  mtime : Option Nat
deriving DecidableEq, Repr

/-- `computeFileHash`: MD5 of the content, or `null` when the read fails. -/
def computeFileHash (content : Option String) : Option String := content.map md5hex

/-- The per-file body of `createSnapshot`'s scan loop: a code file whose hash
computes gets an entry; a file whose hash computation fails (`null`) is
skipped. -/
def scanEntry (f : ScanFile) : Option (String × FileSnapshot) :=
  if isCodeFile f.path then
    match computeFileHash f.content with
    | some h => some (f.path, { path := f.path, hash := h, mtime := f.mtime })
    | none => none
  else none

/-- `createSnapshot`: keep the code files, hash each one, and skip (rather
than fail on) any file whose hash cannot be computed. -/
def createSnapshot (now : Nat) (files : List ScanFile) : Snapshot :=
  { timestamp := now, files := files.filterMap scanEntry }

/-! ## Snapshot persistence (`saveSnapshot` / `loadSnapshot`) -/

/-- The JSON document written by `saveSnapshot`: a timestamp and the files map
serialized as an object (insertion order preserved). -/
structure StoredSnapshot where
  timestamp : Nat
  files : List (String × FileSnapshot)
deriving DecidableEq, Repr

/-- `saveSnapshot`: serialize the timestamp and the files map. -/
def saveSnapshot (snapshot : Snapshot) : StoredSnapshot :=
  { timestamp := snapshot.timestamp, files := snapshot.files }

/-- `loadSnapshot`: `none` when the file is missing or unparsable; otherwise
rebuild the map and take `snapshotData.timestamp || Date.now()` — a falsy
(zero) stored timestamp is replaced by the load-time clock `now`. -/
def loadSnapshot (stored : Option StoredSnapshot) (now : Nat) : Option Snapshot :=
  match stored with
  | none => none
  | some d => some { timestamp := if d.timestamp = 0 then now else d.timestamp,
                     files := d.files }

/-! ## The update scheduler (`src/unnamed/part_016`) -/

/-- `Set.add`: append when absent (JS `Set` keeps insertion order and ignores
re-insertion). -/
def addSet (l : List String) (p : String) : List String :=
  if p ∈ l then l else l ++ [p]

/-- The module-level mutable state of the extension entry point. -/
structure SchedState where
  ragUpdateInProgress : Bool
  pendingChangedFiles : List String
  pendingDeletedFiles : List String
  lastUpdateTime : Nat
deriving DecidableEq, Repr

/-- The quiescent state right after module load. -/
def initSchedState : SchedState :=
  { ragUpdateInProgress := false, pendingChangedFiles := [],
    pendingDeletedFiles := [], lastUpdateTime := 0 }

/-- How a call to `updateRAG` returns. -/
inductive UpdateOutcome where
  /-- The guard `if (ragUpdateInProgress) return;` fired: the promise resolves
  immediately, no build runs, the pending sets are untouched. -/
  | skippedInProgress
  /-- Both pending sets were empty: resolve immediately. -/
  | skippedEmpty
  /-- A build pass ran over the captured pending sets and succeeded (`true`,
  promise resolves) or failed (`false`, promise rejects). -/
  | ran (changedFiles deletedFiles : List String) (success : Bool)
deriving DecidableEq, Repr

/-- Whether the `updateRAG` promise resolved (rather than rejected). -/
def UpdateOutcome.resolved : UpdateOutcome → Bool
  | .ran _ _ success => success
  | _ => true

/-- `updateRAG`, run to completion: skip when a pass is already in flight or
nothing is pending; otherwise capture and clear the pending sets, run the
pass, and reset `ragUpdateInProgress` when the spawned process closes. -/
def updateRAG (st : SchedState) (buildSucceeds : Bool) : UpdateOutcome × SchedState :=
  if st.ragUpdateInProgress then (.skippedInProgress, st)
  else if st.pendingChangedFiles = [] ∧ st.pendingDeletedFiles = [] then (.skippedEmpty, st)
  else
    (.ran st.pendingChangedFiles st.pendingDeletedFiles buildSucceeds,
     { st with ragUpdateInProgress := false,
               pendingChangedFiles := [], pendingDeletedFiles := [] })

/-- The entry half of `updateRAG`, used by the interleaving model: up to and
including setting `ragUpdateInProgress := true` and clearing the pending
sets; the spawned pass is still in flight afterwards. -/
def updateRAGStart (st : SchedState) : UpdateOutcome × SchedState :=
  if st.ragUpdateInProgress then (.skippedInProgress, st)
  else if st.pendingChangedFiles = [] ∧ st.pendingDeletedFiles = [] then (.skippedEmpty, st)
  else
    (.ran st.pendingChangedFiles st.pendingDeletedFiles true,
     { st with ragUpdateInProgress := true,
               pendingChangedFiles := [], pendingDeletedFiles := [] })

/-- The `close` handler of `updateRAG`'s spawned process: reset the in-flight
flag; a successful pass additionally clears the pending sets. -/
def updateRAGFinish (st : SchedState) (success : Bool) : SchedState :=
  if success then
    { st with ragUpdateInProgress := false,
              pendingChangedFiles := [], pendingDeletedFiles := [] }
  else { st with ragUpdateInProgress := false }

/-! ### Interleaved build requests (concurrency model for `updateRAG`) -/

/-- An event of the build domain: a request (the caller first adds its files
to the pending set, then calls `updateRAG`), or the completion of the
currently running pass. -/
inductive BuildEvent where
  | request (files : List String)
  | finish (success : Bool)
deriving DecidableEq, Repr

/-- A trace state: the scheduler state, how many passes are in flight, how
many were ever started, and the outcome returned by each `updateRAG` call. -/
structure BuildTraceState where
  sched : SchedState
  inFlight : Nat
  startedCount : Nat
  outcomes : List UpdateOutcome
deriving DecidableEq, Repr

/-- Initial trace state. -/
def initTrace : BuildTraceState :=
  { sched := initSchedState, inFlight := 0, startedCount := 0, outcomes := [] }

/-- One build-domain event. -/
def buildStep (ts : BuildTraceState) (e : BuildEvent) : BuildTraceState :=
  match e with
  | .request files =>
      let st0 := { ts.sched with
        pendingChangedFiles := files.foldl addSet ts.sched.pendingChangedFiles }
      let (outcome, st1) := updateRAGStart st0
      match outcome with
      | .ran _ _ _ =>
          { sched := st1, inFlight := ts.inFlight + 1,
            startedCount := ts.startedCount + 1, outcomes := ts.outcomes ++ [outcome] }
      | _ => { ts with sched := st1, outcomes := ts.outcomes ++ [outcome] }
  | .finish success =>
      if ts.inFlight = 0 then ts
      else { ts with sched := updateRAGFinish ts.sched success,
                     inFlight := ts.inFlight - 1 }

/-- Run a list of build-domain events. -/
def runBuild (ts : BuildTraceState) (es : List BuildEvent) : BuildTraceState :=
  es.foldl buildStep ts

/-! ### The periodic snapshot checker -/

/-- Engine-level state carried across check cycles: the in-memory
`oldSnapshot`, the persisted `snapshot.json`, and the scheduler state. -/
structure CycleState where
  oldSnapshot : Option Snapshot
  persisted : Option StoredSnapshot
  sched : SchedState
  snapshotsTaken : Nat
deriving DecidableEq, Repr

/-- The guard at the top of `checkSnapshotAndUpdate`:
`timeSinceLastUpdate >= updateIntervalSeconds` where `timeSinceLastUpdate` is
`(currentTime - lastUpdateTime) / 1000`, or the interval itself when no update
has happened yet (`lastUpdateTime = 0`). -/
def intervalPassed (lastUpdateTime currentTime interval : Nat) : Bool :=
  if lastUpdateTime > 0 then
    decide (((currentTime : ℚ) - (lastUpdateTime : ℚ)) / 1000 ≥ (interval : ℚ))
  else true

/-- One tick of `checkSnapshotAndUpdate`. When the interval has passed it
takes a fresh snapshot (`newSnapshot`, counted by `snapshotsTaken`), loads the
old one if not cached, diffs, and on a non-empty diff queues
`added ++ changed` as changed and `deleted` as deleted and awaits `updateRAG`:
persisting `newSnapshot` on resolution and keeping the old snapshot on
rejection. An empty diff just persists the re-timestamped snapshot. When the
interval has not passed, nothing happens. -/
def checkSnapshotAndUpdate (cs : CycleState) (currentTime interval : Nat)
    (newSnapshot : Snapshot) (buildSucceeds : Bool) : CycleState :=
  if intervalPassed cs.sched.lastUpdateTime currentTime interval then
    let taken := cs.snapshotsTaken + 1
    match (match cs.oldSnapshot with
           | some o => some o
           | none => loadSnapshot cs.persisted currentTime) with
    | some old =>
        let changes := compareSnapshots old newSnapshot
        if changes.added.length + changes.changed.length + changes.deleted.length > 0 then
          let sched1 := { cs.sched with
            pendingChangedFiles :=
              (changes.added ++ changes.changed).foldl addSet cs.sched.pendingChangedFiles,
            pendingDeletedFiles :=
              changes.deleted.foldl addSet cs.sched.pendingDeletedFiles,
            lastUpdateTime := currentTime }
          let r := updateRAG sched1 buildSucceeds
          if r.1.resolved then
            { oldSnapshot := some newSnapshot,
              persisted := some (saveSnapshot newSnapshot),
              sched := r.2, snapshotsTaken := taken }
          else
            { oldSnapshot := cs.oldSnapshot, persisted := cs.persisted,
              sched := r.2, snapshotsTaken := taken }
        else
          { oldSnapshot := some newSnapshot,
            persisted := some (saveSnapshot newSnapshot),
            sched := { cs.sched with lastUpdateTime := currentTime },
            snapshotsTaken := taken }
    | none =>
        { oldSnapshot := some newSnapshot,
          persisted := some (saveSnapshot newSnapshot),
          sched := { cs.sched with lastUpdateTime := currentTime },
          snapshotsTaken := taken }
  else cs

/-! ### `.env` parsing (`getUpdateIntervalSeconds`) -/

/-- JavaScript `\s` on the ASCII range (the regex is only ever applied to
`.env` lines). -/
def jsSpace (c : Char) : Bool :=
  c = ' ' ∨ c = '\t' ∨ c = '\n' ∨ c = '\x0d' ∨ c = Char.ofNat 11 ∨ c = Char.ofNat 12

/-- Strip an exact literal from the front, or fail. -/
def stripLit : List Char → List Char → Option (List Char)
  | [], l => some l
  | _ :: _, [] => none
  | c :: cs, d :: ds => if c = d then stripLit cs ds else none

/-- Digit-string value, as `parseInt(·, 10)` computes it on a `\d+` match. -/
def digitsToNat (l : List Char) : Nat := l.foldl (fun n c => 10 * n + (c.toNat - 48)) 0

/-- Matching one line against `^\s*RAG_UPDATE_INTERVAL_SECONDS\s*=\s*(\d+)\s*$`,
returning the captured value. -/
def matchIntervalLine (line : String) : Option Nat :=
  let l1 := line.data.dropWhile jsSpace
  match stripLit "RAG_UPDATE_INTERVAL_SECONDS".data l1 with
  | none => none
  | some l2 =>
      match l2.dropWhile jsSpace with
      | '=' :: l4 =>
          let l5 := l4.dropWhile jsSpace
          let digits := l5.takeWhile Char.isDigit
          let rest := l5.dropWhile Char.isDigit
          if digits ≠ [] ∧ rest.all jsSpace then some (digitsToNat digits) else none
      | _ => none

/-- `getUpdateIntervalSeconds`: 60 when the `.env` file is missing (or
unreadable, both modelled by `none`); otherwise the value of the first line
matching the interval regex, or 60 when no line matches. -/
def getUpdateIntervalSeconds (env : Option (List String)) : Nat :=
  match env with
  | none => 60
  | some lines => (lines.filterMap matchIntervalLine).headD 60

/-! ### The startup catch-up (`initializeRAGForWorkspace`) -/

/-- What the startup snapshot-check block did. -/
structure CatchUpResult where
  persisted : Option StoredSnapshot
  /-- `some (changed, deleted)` when an `updateRAG` pass was dispatched, with
  the file sets it received. -/
  buildRan : Option (List String × List String)
  sched : SchedState
deriving DecidableEq, Repr

/-- The snapshot-check block that `initializeRAGForWorkspace` runs once after
a successful RAG init, before `setupSnapshotChecker` installs the periodic
timer. `loaded` is the persisted snapshot (if any), `fresh` the snapshot
created now, and `fallbackFresh` the snapshot the `catch` handler creates
when anything in the block throws. -/
def startupCatchUp (loaded : Option Snapshot) (fresh : Snapshot)
    (st : SchedState) (buildSucceeds : Bool)
    (fallbackFresh : Snapshot) (now : Nat) : CatchUpResult :=
  match loaded with
  | some old =>
      let changes := compareSnapshots old fresh
      if changes.added.length + changes.changed.length + changes.deleted.length > 0 then
        let st1 := { st with
          pendingChangedFiles :=
            (changes.added ++ changes.changed).foldl addSet st.pendingChangedFiles,
          pendingDeletedFiles := changes.deleted.foldl addSet st.pendingDeletedFiles }
        let r := updateRAG st1 buildSucceeds
        let ranInfo : Option (List String × List String) :=
          match r.1 with
          | .ran c d _ => some (c, d)
          | _ => none
        if r.1.resolved then
          { persisted := some (saveSnapshot fresh), buildRan := ranInfo,
            sched := { r.2 with lastUpdateTime := now } }
        else
          -- the catch handler: create and save an initial snapshot as fallback
          { persisted := some (saveSnapshot fallbackFresh), buildRan := ranInfo,
            sched := r.2 }
      else
        { persisted := some (saveSnapshot fresh), buildRan := none, sched := st }
  | none =>
      { persisted := some (saveSnapshot fresh), buildRan := none, sched := st }

/-- The phases of `initializeRAGForWorkspace`, in program order: the RAG init
call, then the one-shot snapshot catch-up, then `setupSnapshotChecker` (which
installs the periodic `setInterval` timer — no tick can run earlier). -/
inductive StartupPhase where
  | ragInit
  | catchUpCheck
  | schedulerSetup
deriving DecidableEq, Repr

/-- The order in which `initializeRAGForWorkspace` performs its phases. -/
def startupPhases : List StartupPhase := [.ragInit, .catchUpCheck, .schedulerSetup]

/-! ### The debounced file watcher (`setupFileWatcher`) -/

/-- A file-system notification delivered to the watcher. -/
inductive FsEvent where
  | changed (p : String)
  | created (p : String)
  | deleted (p : String)
deriving DecidableEq, Repr

/-- The path a notification is about. -/
def FsEvent.path : FsEvent → String
  | .changed p => p
  | .created p => p
  | .deleted p => p

/-- Watcher-side state: the two pending sets, whether the shared 1-second
debounce timer (`fileChangeDebounceTimer`) is armed, the in-flight flag, and
the argument sets of every build pass dispatched so far. -/
structure WatchState where
  pendingChangedFiles : List String
  pendingDeletedFiles : List String
  debounceArmed : Bool
  ragUpdateInProgress : Bool
  dispatched : List (List String × List String)
deriving DecidableEq, Repr

/-- Quiescent watcher state. -/
def initWatchState : WatchState :=
  { pendingChangedFiles := [], pendingDeletedFiles := [], debounceArmed := false,
    ragUpdateInProgress := false, dispatched := [] }

/-- The `onDidChange` / `onDidCreate` / `onDidDelete` handlers: for a tracked
file, record the path in the pending sets (a deletion also removes the path
from the changed set) and clear-and-rearm the single shared debounce timer.
No build is triggered here. -/
def onFsEvent (tracked : String → Bool) (st : WatchState) (e : FsEvent) : WatchState :=
  match e with
  | .changed p =>
      if tracked p then
        { st with pendingChangedFiles := addSet st.pendingChangedFiles p,
                  debounceArmed := true }
      else st
  | .created p =>
      if tracked p then
        { st with pendingChangedFiles := addSet st.pendingChangedFiles p,
                  debounceArmed := true }
      else st
  | .deleted p =>
      if tracked p then
        { st with pendingDeletedFiles := addSet st.pendingDeletedFiles p,
                  pendingChangedFiles := st.pendingChangedFiles.erase p,
                  debounceArmed := true }
      else st

/-- The debounce timer firing: one `updateRAG` call, which dispatches a single
build over the accumulated pending sets (unless it skips). -/
def onDebounceFire (st : WatchState) : WatchState :=
  if st.debounceArmed then
    let st1 := { st with debounceArmed := false }
    if st1.ragUpdateInProgress then st1
    else if st1.pendingChangedFiles = [] ∧ st1.pendingDeletedFiles = [] then st1
    else
      { st1 with pendingChangedFiles := [], pendingDeletedFiles := [],
                 dispatched := st1.dispatched ++
                   [(st1.pendingChangedFiles, st1.pendingDeletedFiles)] }
  else st

/-- Deliver a burst of notifications. -/
def runWatch (tracked : String → Bool) (st : WatchState) (es : List FsEvent) : WatchState :=
  es.foldl (onFsEvent tracked) st

/-! ## Retrieval (spec-modelled; `rag_service.py` is not under `src/`) -/

/-- Modelled from the spec: the retrieval pipeline of §4.6 (the Python
`rag_service.py` implementing it is not part of the provided sources). A
store is a similarity-sorted candidate list; a top-`k` search takes its first
`k` elements. -/
def searchStore {α : Type} (store : List α) (k : Nat) : List α := store.take k

/-- Modelled from the spec: one store's contribution — top-`initialCandidates`
candidates, then either reranked (an arbitrary reordering) and cut to
`rerankTopN`, or cut to `rerankTopN` by similarity. -/
def storeResults {α : Type} (rerank : List α → List α) (enableRerank : Bool)
    (initialCandidates rerankTopN : Nat) (store : List α) : List α :=
  let cands := searchStore store initialCandidates
  if enableRerank then (rerank cands).take rerankTopN else cands.take rerankTopN

/-- Modelled from the spec: `retrieve` concatenates the three per-store result
lists in fixed store order (function, class, file) with no cross-store
deduplication. -/
def retrieve {α : Type} (rerank : List α → List α) (enableRerank : Bool)
    (initialCandidates rerankTopN : Nat) (functionStore classStore fileStore : List α) :
    List α :=
  storeResults rerank enableRerank initialCandidates rerankTopN functionStore ++
  storeResults rerank enableRerank initialCandidates rerankTopN classStore ++
  storeResults rerank enableRerank initialCandidates rerankTopN fileStore

/-! ## Lookup lemmas for the association-list `Map` -/

theorem findEntry_of_mem {l : List (String × FileSnapshot)}
    (hnd : (l.map Prod.fst).Nodup) {p : String} {f : FileSnapshot}
    (hm : (p, f) ∈ l) : (l.find? fun e => e.1 == p) = some (p, f) := by
  induction l with
  | nil => cases hm
  | cons e t ih =>
    simp only [List.map_cons, List.nodup_cons] at hnd
    rcases List.mem_cons.mp hm with h | h
    · rw [← h]
      simp [List.find?]
    · have hne : (e.1 == p) = false := by
        rw [beq_eq_false_iff_ne]
        intro hEq
        exact hnd.1 (hEq ▸ List.mem_map.mpr ⟨(p, f), h, rfl⟩)
      simp only [List.find?, hne]
      exact ih hnd.2 h

theorem Snapshot.mem_of_get {s : Snapshot} {p : String} {f : FileSnapshot}
    (hg : s.get p = some f) : (p, f) ∈ s.files := by
  obtain ⟨e, hfind, h2⟩ := Option.map_eq_some'.mp hg
  have hp : e.1 = p := by simpa using List.find?_some hfind
  have hm := List.mem_of_find?_eq_some hfind
  rw [← hp, ← h2]
  simpa using hm

theorem Snapshot.get_eq_some_iff {s : Snapshot} (h : s.WF) {p : String}
    {f : FileSnapshot} : s.get p = some f ↔ (p, f) ∈ s.files := by
  constructor
  · exact Snapshot.mem_of_get
  · intro hm
    unfold Snapshot.get
    rw [findEntry_of_mem h hm]
    rfl

theorem Snapshot.get_isSome_iff {s : Snapshot} {p : String} :
    (∃ f, s.get p = some f) ↔ ∃ f, (p, f) ∈ s.files := by
  constructor
  · rintro ⟨f, hf⟩
    exact ⟨f, Snapshot.mem_of_get hf⟩
  · rintro ⟨f, hf⟩
    have hs : (s.files.find? fun e => e.1 == p).isSome := by
      rw [List.find?_isSome]
      exact ⟨(p, f), hf, by simp⟩
    obtain ⟨e, he⟩ := Option.isSome_iff_exists.mp hs
    exact ⟨e.2, by unfold Snapshot.get; rw [he]; rfl⟩

theorem Snapshot.get_eq_none_iff {s : Snapshot} {p : String} :
    s.get p = none ↔ ∀ f, (p, f) ∉ s.files := by
  unfold Snapshot.get
  simp only [Option.map_eq_none', List.find?_eq_none]
  constructor
  · intro h f hm
    have := h (p, f) hm
    simp at this
  · intro h e he
    simp only [beq_iff_eq]
    intro hep
    exact h e.2 (by rw [← hep]; simpa using he)

/-! ## C1 — diff characterization -/

theorem mem_changed_iff {oldS newS : Snapshot} (hnew : newS.WF) (p : String) :
    p ∈ (compareSnapshots oldS newS).changed ↔
      ∃ nf of, newS.get p = some nf ∧ oldS.get p = some of ∧ of.hash ≠ nf.hash := by
  simp only [compareSnapshots, List.mem_filterMap]
  constructor
  · rintro ⟨e, he, hg⟩
    match hold : oldS.get e.1 with
    | none => rw [hold] at hg; cases hg
    | some of =>
        rw [hold] at hg
        dsimp only at hg
        by_cases hne : of.hash ≠ e.2.hash
        · rw [if_pos hne] at hg
          cases hg
          exact ⟨e.2, of, (Snapshot.get_eq_some_iff hnew).mpr (by simpa using he),
            hold, hne⟩
        · rw [if_neg hne] at hg; cases hg
  · rintro ⟨nf, of, hnf, hof, hne⟩
    exact ⟨(p, nf), Snapshot.mem_of_get hnf, by simp [hof, hne]⟩

theorem mem_added_iff (oldS newS : Snapshot) (p : String) :
    p ∈ (compareSnapshots oldS newS).added ↔
      (∃ nf, newS.get p = some nf) ∧ oldS.get p = none := by
  simp only [compareSnapshots, List.mem_map, List.mem_filter]
  constructor
  · rintro ⟨e, ⟨he, hnone⟩, rfl⟩
    exact ⟨Snapshot.get_isSome_iff.mpr ⟨e.2, by simpa using he⟩,
      by simpa using hnone⟩
  · rintro ⟨⟨nf, hnf⟩, hnone⟩
    exact ⟨(p, nf), ⟨Snapshot.mem_of_get hnf, by simp [hnone]⟩, rfl⟩

theorem mem_deleted_iff (oldS newS : Snapshot) (p : String) :
    p ∈ (compareSnapshots oldS newS).deleted ↔
      (∃ of, oldS.get p = some of) ∧ newS.get p = none := by
  simp only [compareSnapshots, List.mem_map, List.mem_filter]
  constructor
  · rintro ⟨e, ⟨he, habs⟩, rfl⟩
    refine ⟨Snapshot.get_isSome_iff.mpr ⟨e.2, by simpa using he⟩, ?_⟩
    simpa [Snapshot.hasPath, Option.isSome_iff_exists] using habs
  · rintro ⟨⟨of, hof⟩, hnone⟩
    exact ⟨(p, of), ⟨Snapshot.mem_of_get hof, by simp [Snapshot.hasPath, hnone]⟩, rfl⟩

/-- The spec's concrete diff example: old `{a:h1, b:h2}`. -/
def c1exOld : Snapshot :=
  { files := [("a", ⟨"a", "h1", none⟩), ("b", ⟨"b", "h2", none⟩)], timestamp := 0 }

/-- The spec's concrete diff example: new `{a:h1, b:h3, c:h4}`. -/
def c1exNew : Snapshot :=
  { files := [("a", ⟨"a", "h1", none⟩), ("b", ⟨"b", "h3", none⟩),
              ("c", ⟨"c", "h4", none⟩)],
    timestamp := 1 }

/-- C1: for well-formed snapshots, `compareSnapshots` puts a path in `changed`
iff it is present in both snapshots with differing hash, in `added` iff
present only in the new snapshot, in `deleted` iff present only in the old
one, and a path present in both with equal hash is in none of the three
lists; on the spec's example (old `{a:h1, b:h2}`, new `{a:h1, b:h3, c:h4}`)
the result is `changed = [b]`, `added = [c]`, `deleted = []`. -/
theorem compareSnapshots_spec :
    (∀ oldS newS : Snapshot, oldS.WF → newS.WF → ∀ p : String,
      (p ∈ (compareSnapshots oldS newS).changed ↔
        ∃ nf of, newS.get p = some nf ∧ oldS.get p = some of ∧ of.hash ≠ nf.hash) ∧
      (p ∈ (compareSnapshots oldS newS).added ↔
        (∃ nf, newS.get p = some nf) ∧ oldS.get p = none) ∧
      (p ∈ (compareSnapshots oldS newS).deleted ↔
        (∃ of, oldS.get p = some of) ∧ newS.get p = none) ∧
      (∀ nf of, newS.get p = some nf → oldS.get p = some of → of.hash = nf.hash →
        p ∉ (compareSnapshots oldS newS).changed ∧
        p ∉ (compareSnapshots oldS newS).added ∧
        p ∉ (compareSnapshots oldS newS).deleted)) ∧
    compareSnapshots c1exOld c1exNew =
      { added := ["c"], deleted := [], changed := ["b"] } := by
  refine ⟨?_, by decide⟩
  intro oldS newS _hold hnew p
  refine ⟨mem_changed_iff hnew p, mem_added_iff oldS newS p, mem_deleted_iff oldS newS p,
    fun nf of hnf hof hEq => ⟨?_, ?_, ?_⟩⟩
  · rw [mem_changed_iff hnew p]
    rintro ⟨nf', of', hnf', hof', hne'⟩
    rw [hnf] at hnf'
    rw [hof] at hof'
    cases hnf'
    cases hof'
    exact hne' hEq
  · rw [mem_added_iff oldS newS p]
    rintro ⟨-, hnone⟩
    rw [hof] at hnone
    cases hnone
  · rw [mem_deleted_iff oldS newS p]
    rintro ⟨-, hnone⟩
    rw [hnf] at hnone
    cases hnone

/-- Witness for C1 at the spec's concrete example. -/
theorem compareSnapshots_spec_witness :
    c1exOld.WF ∧ c1exNew.WF ∧
    ("b" ∈ (compareSnapshots c1exOld c1exNew).changed ↔
      ∃ nf of, c1exNew.get "b" = some nf ∧ c1exOld.get "b" = some of ∧
        of.hash ≠ nf.hash) :=
  ⟨by decide, by decide,
    (compareSnapshots_spec.1 c1exOld c1exNew (by decide) (by decide) "b").1⟩

/-! ## C9 — per-workspace storage keying -/

theorem string_append_left_cancel {a b c : String} (h : a ++ b = a ++ c) : b = c := by
  apply String.ext
  have hd := congrArg String.data h
  rw [String.data_append a b, String.data_append a c] at hd
  exact List.append_cancel_left hd

/-- C9 (amended): the storage directory is keyed by the first 12 hex
characters of the MD5 of the resolved workspace path, so two workspace roots
receive distinct directories whenever those truncated digests differ — but
only then: the 48-bit truncation admits collisions between distinct roots. -/
theorem getWorkspaceStoragePath_inj_of_hash_ne (cwd w1 w2 ext : String)
    (hne : takeChars (md5hex (resolvePosix cwd w1)) 12 ≠
      takeChars (md5hex (resolvePosix cwd w2)) 12) :
    getWorkspaceStoragePath cwd w1 ext ≠ getWorkspaceStoragePath cwd w2 ext := by
  intro hEq
  apply hne
  simp only [getWorkspaceStoragePath, joinPath] at hEq
  exact string_append_left_cancel (string_append_left_cancel hEq)

/-- Witness for C9's amended statement at concrete roots with different
truncated digests. -/
theorem getWorkspaceStoragePath_inj_witness :
    takeChars (md5hex (resolvePosix "/" "/w")) 12 ≠ takeChars (md5hex (resolvePosix "/" "/x")) 12 ∧
    getWorkspaceStoragePath "/" "/w" "/ext" ≠ getWorkspaceStoragePath "/" "/x" "/ext" :=
  ⟨by decide, getWorkspaceStoragePath_inj_of_hash_ne "/" "/w" "/x" "/ext" (by decide)⟩

/-- C9 counterexample: two distinct workspace roots (distinct resolved
absolute paths) whose 12-character truncated MD5 digests coincide, so
`getWorkspaceStoragePath` maps them to the same storage directory. -/
theorem getWorkspaceStoragePath_collision :
    resolvePosix "/" "/home/user/project_2149406" ≠
      resolvePosix "/" "/home/user/project_6548632" ∧
    getWorkspaceStoragePath "/" "/home/user/project_2149406" "/ext" =
      getWorkspaceStoragePath "/" "/home/user/project_6548632" "/ext" :=
  ⟨by decide, by decide⟩

/-! ## C10 — snapshot persistence round trip -/

/-- C10 (amended): persistence round-trips exactly for every snapshot whose
timestamp is nonzero — `loadSnapshot` rebuilds the same file mapping and the
same timestamp; only a (falsy) zero timestamp is replaced by the load-time
clock. -/
theorem saveSnapshot_loadSnapshot_roundtrip (s : Snapshot) (now : Nat)
    (h : s.timestamp ≠ 0) : loadSnapshot (some (saveSnapshot s)) now = some s := by
  simp [loadSnapshot, saveSnapshot, h]

/-- Witness for C10's amended statement. -/
theorem saveSnapshot_loadSnapshot_roundtrip_witness :
    c1exNew.timestamp ≠ 0 ∧
      loadSnapshot (some (saveSnapshot c1exNew)) 99 = some c1exNew :=
  ⟨by decide, saveSnapshot_loadSnapshot_roundtrip c1exNew 99 (by decide)⟩

/-- C10 counterexample: a snapshot with timestamp 0 does not round-trip —
`snapshotData.timestamp || Date.now()` replaces the falsy stored value with
the load-time clock. -/
theorem saveSnapshot_loadSnapshot_zero_timestamp :
    loadSnapshot (some (saveSnapshot { files := [], timestamp := 0 })) 5 ≠
      some { files := [], timestamp := 0 } := by
  decide

/-! ## C8 — unreadable files are skipped, not fatal -/

theorem scanEntry_path {f : ScanFile} {e : String × FileSnapshot}
    (h : scanEntry f = some e) : e.1 = f.path := by
  unfold scanEntry at h
  split at h
  · split at h
    · cases h; rfl
    · cases h
  · cases h

theorem scanEntry_readable {f : ScanFile} {e : String × FileSnapshot}
    (h : scanEntry f = some e) : ∃ c, f.content = some c := by
  unfold scanEntry computeFileHash at h
  split at h
  · cases hc : f.content with
    | none => rw [hc] at h; cases h
    | some c => exact ⟨c, rfl⟩
  · cases h

theorem createSnapshot_WF (now : Nat) (files : List ScanFile)
    (h : (files.map ScanFile.path).Nodup) : (createSnapshot now files).WF := by
  unfold Snapshot.WF createSnapshot
  simp only
  induction files with
  | nil => simp
  | cons f t ih =>
    simp only [List.map_cons, List.nodup_cons] at h
    rw [List.filterMap_cons]
    cases hg : scanEntry f with
    | none => exact ih h.2
    | some e =>
      simp only [List.map_cons, List.nodup_cons]
      refine ⟨?_, ih h.2⟩
      intro hmem
      rw [scanEntry_path hg] at hmem
      apply h.1
      obtain ⟨e', he', hpe⟩ := List.mem_map.mp hmem
      obtain ⟨f', hf', hg'⟩ := List.mem_filterMap.mp he'
      rw [← hpe, scanEntry_path hg']
      exact List.mem_map.mpr ⟨f', hf', rfl⟩

/-- C8: for a duplicate-free scan, `createSnapshot` returns (it can never
abort) a snapshot with an entry for every readable tracked (code) file,
carrying that file's MD5 content hash and mtime, while every file whose hash
computation fails has no entry at all in the returned file map. -/
theorem createSnapshot_skips_unreadable :
    ∀ (now : Nat) (files : List ScanFile), (files.map ScanFile.path).Nodup →
      (∀ f ∈ files, ∀ c, isCodeFile f.path = true → f.content = some c →
        (createSnapshot now files).get f.path =
          some { path := f.path, hash := md5hex c, mtime := f.mtime }) ∧
      (∀ f ∈ files, f.content = none →
        (createSnapshot now files).get f.path = none) := by
  intro now files hnd
  constructor
  · intro f hf c hic hc
    apply (Snapshot.get_eq_some_iff (createSnapshot_WF now files hnd)).mpr
    apply List.mem_filterMap.mpr
    refine ⟨f, hf, ?_⟩
    unfold scanEntry
    simp [hic, computeFileHash, hc]
  · intro f hf hc
    apply Snapshot.get_eq_none_iff.mpr
    intro fl hm
    obtain ⟨f', hf', hg'⟩ := List.mem_filterMap.mp hm
    have hpath : f'.path = f.path := by
      have := scanEntry_path hg'
      simpa using this.symm
    have hff : f' = f := by
      exact List.inj_on_of_nodup_map hnd hf' hf hpath
    obtain ⟨c, hcc⟩ := scanEntry_readable hg'
    rw [hff, hc] at hcc
    cases hcc

/-- Witness for C8: a scan with one readable and one unreadable tracked file;
the readable one gets a hashed entry, the unreadable one none. -/
theorem createSnapshot_skips_unreadable_witness :
    ([⟨"a.py", some "x", some 7⟩, ⟨"b.py", none, none⟩].map ScanFile.path).Nodup ∧
    (createSnapshot 3 [⟨"a.py", some "x", some 7⟩, ⟨"b.py", none, none⟩]).get "a.py" =
      some { path := "a.py", hash := md5hex "x", mtime := some 7 } ∧
    (createSnapshot 3 [⟨"a.py", some "x", some 7⟩, ⟨"b.py", none, none⟩]).get "b.py" =
      none := by
  refine ⟨by decide, ?_, ?_⟩
  · exact (createSnapshot_skips_unreadable 3 _ (by decide)).1
      ⟨"a.py", some "x", some 7⟩ (by decide) "x" (by decide) rfl
  · exact (createSnapshot_skips_unreadable 3 _ (by decide)).2
      ⟨"b.py", none, none⟩ (by decide) rfl

/-! ## C6 — retrieval result bound -/

/-- C6: with reranking enabled and `initialCandidates = k1 ≥ rerankTopN = k2`,
the merged result of the three kind-scoped stores has length at most
`3 * k2`, for every reranker; and the result can be strictly shorter when a
store holds fewer qualifying units (concretely: stores of sizes 1, 0, 0 with
`k2 = 2` yield 1 < 6 results). -/
theorem retrieve_result_bound :
    (∀ (α : Type) (rerank : List α → List α) (k1 k2 : Nat)
      (functionStore classStore fileStore : List α), k2 ≤ k1 →
      (retrieve rerank true k1 k2 functionStore classStore fileStore).length ≤ 3 * k2) ∧
    (retrieve (fun l => l) true 5 2 [0] ([] : List Nat) []).length < 3 * 2 := by
  constructor
  · intro α rerank k1 k2 s1 s2 s3 _h
    have hb : ∀ l : List α, (storeResults rerank true k1 k2 l).length ≤ k2 := by
      intro l
      simp only [storeResults, if_pos]
      exact List.length_take_le k2 _
    have h1 := hb s1
    have h2 := hb s2
    have h3 := hb s3
    simp only [retrieve, List.length_append]
    omega
  · decide

/-- Witness for C6 at concrete parameters and stores. -/
theorem retrieve_result_bound_witness :
    2 ≤ 5 ∧
    (retrieve (fun l => l.reverse) true 5 2 [1, 2, 3, 4, 5, 6] [1] ([] : List Nat)).length
      ≤ 3 * 2 :=
  ⟨by decide,
    retrieve_result_bound.1 Nat (fun l => l.reverse) 5 2 [1, 2, 3, 4, 5, 6] [1] []
      (by decide)⟩

/-! ## C5 — configurable update interval and tick guard -/

/-- C5: `getUpdateIntervalSeconds` returns 60 when the `.env` file is absent
or no line matches the `RAG_UPDATE_INTERVAL_SECONDS` regex, and the first
matching line's value otherwise; and a `checkSnapshotAndUpdate` tick is a
no-op when less than the configured interval has elapsed since the last
update, takes (and diffs) a snapshot exactly when the guard holds, and the
guard holds iff there was no previous update (`lastUpdateTime = 0`) or
`currentTime - lastUpdateTime` is at least `interval` seconds. -/
theorem updateInterval_spec :
    (getUpdateIntervalSeconds none = 60) ∧
    (∀ lines, (∀ l ∈ lines, matchIntervalLine l = none) →
      getUpdateIntervalSeconds (some lines) = 60) ∧
    (∀ pre l post n, matchIntervalLine l = some n →
      (∀ l' ∈ pre, matchIntervalLine l' = none) →
      getUpdateIntervalSeconds (some (pre ++ l :: post)) = n) ∧
    (∀ cs currentTime interval newSnapshot b,
      intervalPassed cs.sched.lastUpdateTime currentTime interval = false →
      checkSnapshotAndUpdate cs currentTime interval newSnapshot b = cs) ∧
    (∀ cs currentTime interval newSnapshot b,
      intervalPassed cs.sched.lastUpdateTime currentTime interval = true →
      (checkSnapshotAndUpdate cs currentTime interval newSnapshot b).snapshotsTaken =
        cs.snapshotsTaken + 1) ∧
    (∀ last curr interval, intervalPassed last curr interval = true ↔
      (last = 0 ∨ (interval : ℚ) * 1000 ≤ (curr : ℚ) - (last : ℚ))) := by
  refine ⟨rfl, ?_, ?_, ?_, ?_, ?_⟩
  · intro lines h
    simp [getUpdateIntervalSeconds, List.filterMap_eq_nil_iff.mpr h]
  · intro pre l post n hl hpre
    simp [getUpdateIntervalSeconds, List.filterMap_append, List.filterMap_cons, hl,
      List.filterMap_eq_nil_iff.mpr hpre]
  · intro cs currentTime interval newSnapshot b h
    simp only [checkSnapshotAndUpdate, h]
    rfl
  · intro cs currentTime interval newSnapshot b h
    simp only [checkSnapshotAndUpdate, h, if_true]
    split
    · split
      · split
        · rfl
        · rfl
      · rfl
    · rfl
  · intro last curr interval
    unfold intervalPassed
    by_cases hl : last > 0
    · rw [if_pos hl]
      rw [decide_eq_true_iff]
      constructor
      · intro hge
        right
        rw [ge_iff_le, le_div_iff₀ (by norm_num : (0 : ℚ) < 1000)] at hge
        exact hge
      · rintro (h0 | h)
        · omega
        · rw [ge_iff_le, le_div_iff₀ (by norm_num : (0 : ℚ) < 1000)]
          exact h
    · rw [if_neg hl]
      simp only [true_iff]
      left
      omega

/-- Witness for C5: a concrete `.env` whose second line sets the interval to
120 seconds. -/
theorem updateInterval_spec_witness :
    matchIntervalLine "  RAG_UPDATE_INTERVAL_SECONDS = 120 " = some 120 ∧
    getUpdateIntervalSeconds
      (some ["OPENAI_KEY=abc", "  RAG_UPDATE_INTERVAL_SECONDS = 120 ", "X=1"]) = 120 := by
  refine ⟨by decide, ?_⟩
  exact updateInterval_spec.2.2.1 ["OPENAI_KEY=abc"] "  RAG_UPDATE_INTERVAL_SECONDS = 120 "
    ["X=1"] 120 (by decide) (by decide)

/-! ## C7 — the debounce window coalesces a burst into one build -/

theorem mem_addSet_self (l : List String) (p : String) : p ∈ addSet l p := by
  unfold addSet
  split
  · assumption
  · simp

theorem mem_addSet_of_mem {l : List String} {p : String} (q : String) (h : p ∈ l) :
    p ∈ addSet l q := by
  unfold addSet
  split
  · exact h
  · exact List.mem_append_left _ h

theorem runWatch_cons (tracked : String → Bool) (st : WatchState) (e : FsEvent)
    (t : List FsEvent) :
    runWatch tracked st (e :: t) = runWatch tracked (onFsEvent tracked st e) t := rfl

theorem onFsEvent_dispatched (tracked : String → Bool) (st : WatchState) (e : FsEvent) :
    (onFsEvent tracked st e).dispatched = st.dispatched := by
  cases e <;> simp only [onFsEvent] <;> split <;> rfl

theorem onFsEvent_inProgress (tracked : String → Bool) (st : WatchState) (e : FsEvent) :
    (onFsEvent tracked st e).ragUpdateInProgress = st.ragUpdateInProgress := by
  cases e <;> simp only [onFsEvent] <;> split <;> rfl

theorem onFsEvent_armed (tracked : String → Bool) (st : WatchState) {e : FsEvent}
    (h : tracked e.path = true) : (onFsEvent tracked st e).debounceArmed = true := by
  cases e <;> simp only [onFsEvent, FsEvent.path] at h ⊢ <;> rw [if_pos h]

theorem onFsEvent_armed_mono (tracked : String → Bool) (st : WatchState) (e : FsEvent)
    (h : st.debounceArmed = true) : (onFsEvent tracked st e).debounceArmed = true := by
  cases e <;> simp only [onFsEvent] <;> split <;> first | rfl | exact h

theorem onFsEvent_preserves (tracked : String → Bool) (st : WatchState) (e : FsEvent)
    (p : String) (h : p ∈ st.pendingChangedFiles ∨ p ∈ st.pendingDeletedFiles) :
    p ∈ (onFsEvent tracked st e).pendingChangedFiles ∨
      p ∈ (onFsEvent tracked st e).pendingDeletedFiles := by
  cases e with
  | changed q =>
      simp only [onFsEvent]
      split
      · rcases h with h | h
        · exact Or.inl (mem_addSet_of_mem q h)
        · exact Or.inr h
      · exact h
  | created q =>
      simp only [onFsEvent]
      split
      · rcases h with h | h
        · exact Or.inl (mem_addSet_of_mem q h)
        · exact Or.inr h
      · exact h
  | deleted q =>
      simp only [onFsEvent]
      split
      · rcases h with h | h
        · by_cases hpq : p = q
          · exact Or.inr (hpq ▸ mem_addSet_self _ _)
          · exact Or.inl ((List.mem_erase_of_ne hpq).mpr h)
        · exact Or.inr (mem_addSet_of_mem q h)
      · exact h

theorem onFsEvent_covers (tracked : String → Bool) (st : WatchState) (e : FsEvent)
    (h : tracked e.path = true) :
    e.path ∈ (onFsEvent tracked st e).pendingChangedFiles ∨
      e.path ∈ (onFsEvent tracked st e).pendingDeletedFiles := by
  cases e with
  | changed q =>
      simp only [onFsEvent, FsEvent.path] at h ⊢
      rw [if_pos h]
      exact Or.inl (mem_addSet_self _ _)
  | created q =>
      simp only [onFsEvent, FsEvent.path] at h ⊢
      rw [if_pos h]
      exact Or.inl (mem_addSet_self _ _)
  | deleted q =>
      simp only [onFsEvent, FsEvent.path] at h ⊢
      rw [if_pos h]
      exact Or.inr (mem_addSet_self _ _)

theorem runWatch_inv (tracked : String → Bool) (es : List FsEvent) :
    ∀ st : WatchState,
      (runWatch tracked st es).dispatched = st.dispatched ∧
      (runWatch tracked st es).ragUpdateInProgress = st.ragUpdateInProgress ∧
      (∀ p, (p ∈ st.pendingChangedFiles ∨ p ∈ st.pendingDeletedFiles) →
        (p ∈ (runWatch tracked st es).pendingChangedFiles ∨
         p ∈ (runWatch tracked st es).pendingDeletedFiles)) ∧
      (∀ e ∈ es, tracked e.path = true →
        (e.path ∈ (runWatch tracked st es).pendingChangedFiles ∨
         e.path ∈ (runWatch tracked st es).pendingDeletedFiles)) := by
  induction es with
  | nil =>
      intro st
      exact ⟨rfl, rfl, fun p hp => hp, fun e he => absurd he (List.not_mem_nil e)⟩
  | cons e t ih =>
      intro st
      rw [runWatch_cons]
      obtain ⟨h1, h2, h3, h4⟩ := ih (onFsEvent tracked st e)
      refine ⟨by rw [h1, onFsEvent_dispatched], by rw [h2, onFsEvent_inProgress], ?_, ?_⟩
      · intro p hp
        exact h3 p (onFsEvent_preserves tracked st e p hp)
      · intro e' he' htr
        rcases List.mem_cons.mp he' with rfl | hmem
        · exact h3 e'.path (onFsEvent_covers tracked st e' htr)
        · exact h4 e' hmem htr

theorem runWatch_armed (tracked : String → Bool) (es : List FsEvent) :
    ∀ st : WatchState, es ≠ [] → (∀ e ∈ es, tracked e.path = true) →
      (runWatch tracked st es).debounceArmed = true := by
  induction es with
  | nil => intro st h; exact absurd rfl h
  | cons e t ih =>
      intro st _ hall
      rw [runWatch_cons]
      cases t with
      | nil =>
          exact onFsEvent_armed tracked st (hall e (List.mem_cons_self e []))
      | cons e2 t2 =>
          exact ih (onFsEvent tracked st e) (by simp)
            (fun e' he' => hall e' (List.mem_cons_of_mem e he'))

theorem onDebounceFire_dispatch (st : WatchState) (harm : st.debounceArmed = true)
    (hip : st.ragUpdateInProgress = false)
    (hne : ¬(st.pendingChangedFiles = [] ∧ st.pendingDeletedFiles = [])) :
    (onDebounceFire st).dispatched =
      st.dispatched ++ [(st.pendingChangedFiles, st.pendingDeletedFiles)] := by
  unfold onDebounceFire
  simp [harm, hip, hne]

/-- C7: delivering any nonempty burst of tracked change/create/delete
notifications from the quiescent state triggers no build at all during the
burst (each handler only records its path and re-arms the single shared
debounce timer); afterwards the timer is armed, and its firing dispatches
exactly one `updateRAG` build whose changed/deleted argument sets cover every
path of the burst. -/
theorem debounce_single_trigger (tracked : String → Bool) (es : List FsEvent)
    (hne : es ≠ []) (hall : ∀ e ∈ es, tracked e.path = true) :
    (runWatch tracked initWatchState es).dispatched = [] ∧
    (runWatch tracked initWatchState es).debounceArmed = true ∧
    (onDebounceFire (runWatch tracked initWatchState es)).dispatched.length = 1 ∧
    (∀ e ∈ es, ∀ call ∈ (onDebounceFire (runWatch tracked initWatchState es)).dispatched,
      e.path ∈ call.1 ∨ e.path ∈ call.2) := by
  obtain ⟨h1, h2, _h3, h4⟩ := runWatch_inv tracked es initWatchState
  have harm := runWatch_armed tracked es initWatchState hne hall
  have hip : (runWatch tracked initWatchState es).ragUpdateInProgress = false := by
    rw [h2]; rfl
  have hcov : ∀ e ∈ es, e.path ∈ (runWatch tracked initWatchState es).pendingChangedFiles ∨
      e.path ∈ (runWatch tracked initWatchState es).pendingDeletedFiles :=
    fun e he => h4 e he (hall e he)
  have hnonempty : ¬((runWatch tracked initWatchState es).pendingChangedFiles = [] ∧
      (runWatch tracked initWatchState es).pendingDeletedFiles = []) := by
    obtain ⟨e0, he0⟩ := List.exists_mem_of_ne_nil es hne
    rintro ⟨hc, hd⟩
    rcases hcov e0 he0 with h | h
    · rw [hc] at h; exact List.not_mem_nil _ h
    · rw [hd] at h; exact List.not_mem_nil _ h
  have hfire := onDebounceFire_dispatch _ harm hip hnonempty
  refine ⟨by rw [h1]; rfl, harm, ?_, ?_⟩
  · rw [hfire, h1]
    rfl
  · intro e he call hcall
    rw [hfire, h1] at hcall
    simp only [initWatchState, List.nil_append, List.mem_singleton] at hcall
    subst hcall
    exact hcov e he

/-- Witness for C7: a three-notification burst on two files ends in a single
dispatched build covering both paths. -/
theorem debounce_single_trigger_witness :
    ([FsEvent.changed "a.py", FsEvent.changed "b.py", FsEvent.deleted "a.py"] ≠ []) ∧
    (onDebounceFire (runWatch (fun _ => true) initWatchState
      [FsEvent.changed "a.py", FsEvent.changed "b.py",
       FsEvent.deleted "a.py"])).dispatched.length = 1 :=
  ⟨by decide,
    (debounce_single_trigger (fun _ => true)
      [FsEvent.changed "a.py", FsEvent.changed "b.py", FsEvent.deleted "a.py"]
      (by decide) (fun e _ => rfl)).2.2.1⟩

/-! ## C3 — build serialization -/

/-- The build-domain invariant: never more than one pass in flight, and the
`ragUpdateInProgress` flag tracks exactly whether one is. -/
def buildInv (ts : BuildTraceState) : Prop :=
  ts.inFlight ≤ 1 ∧ (ts.sched.ragUpdateInProgress = true ↔ ts.inFlight = 1)

theorem buildStep_request (ts : BuildTraceState) (files : List String) :
    buildStep ts (.request files) =
      (let st0 : SchedState := { ts.sched with
        pendingChangedFiles := files.foldl addSet ts.sched.pendingChangedFiles }
      if st0.ragUpdateInProgress = true then
        { ts with sched := st0, outcomes := ts.outcomes ++ [.skippedInProgress] }
      else if st0.pendingChangedFiles = [] ∧ st0.pendingDeletedFiles = [] then
        { ts with sched := st0, outcomes := ts.outcomes ++ [.skippedEmpty] }
      else
        { sched := { st0 with ragUpdateInProgress := true,
                              pendingChangedFiles := [],
                              pendingDeletedFiles := [] },
          inFlight := ts.inFlight + 1, startedCount := ts.startedCount + 1,
          outcomes := ts.outcomes ++
            [.ran st0.pendingChangedFiles st0.pendingDeletedFiles true] }) := by
  unfold buildStep updateRAGStart
  dsimp only
  split_ifs <;> rfl

theorem buildStep_finish (ts : BuildTraceState) (success : Bool) :
    buildStep ts (.finish success) =
      if ts.inFlight = 0 then ts
      else { ts with sched := updateRAGFinish ts.sched success,
                     inFlight := ts.inFlight - 1 } := rfl

theorem buildStep_inv (ts : BuildTraceState) (e : BuildEvent) (h : buildInv ts) :
    buildInv (buildStep ts e) := by
  obtain ⟨h1, h2⟩ := h
  cases e with
  | request files =>
      rw [buildStep_request]
      dsimp only
      split_ifs with hip hemp
      · exact ⟨h1, h2⟩
      · exact ⟨h1, h2⟩
      · have h0 : ts.inFlight = 0 := by
          have hne1 : ¬ ts.inFlight = 1 := fun hh => hip (h2.mpr hh)
          omega
        refine ⟨?_, ?_⟩
        · show ts.inFlight + 1 ≤ 1
          omega
        · show (true = true) ↔ (ts.inFlight + 1 = 1)
          simp [h0]
  | finish success =>
      rw [buildStep_finish]
      split_ifs with h0
      · exact ⟨h1, h2⟩
      · refine ⟨?_, ?_⟩
        · show ts.inFlight - 1 ≤ 1
          omega
        · show (updateRAGFinish ts.sched success).ragUpdateInProgress = true ↔
            ts.inFlight - 1 = 1
          unfold updateRAGFinish
          split_ifs <;> simp <;> omega

theorem runBuild_cons (ts : BuildTraceState) (e : BuildEvent) (t : List BuildEvent) :
    runBuild ts (e :: t) = runBuild (buildStep ts e) t := rfl

theorem runBuild_inv (es : List BuildEvent) :
    ∀ ts, buildInv ts → buildInv (runBuild ts es) := by
  induction es with
  | nil => intro ts h; exact h
  | cons e t ih =>
      intro ts h
      rw [runBuild_cons]
      exact ih _ (buildStep_inv ts e h)

/-- C3 (amended): at most one build pass is ever in flight (every trace of
requests and completions keeps `inFlight ≤ 1`); however a build request
issued while a pass is in flight is not deferred until the pass finishes — it
returns immediately with outcome `skippedInProgress`, starting no build then
or later. -/
theorem updateRAG_serialization :
    (∀ es : List BuildEvent, (runBuild initTrace es).inFlight ≤ 1) ∧
    (∀ (ts : BuildTraceState) (files : List String),
      ts.sched.ragUpdateInProgress = true →
      (buildStep ts (.request files)).startedCount = ts.startedCount ∧
      (buildStep ts (.request files)).inFlight = ts.inFlight ∧
      (buildStep ts (.request files)).outcomes =
        ts.outcomes ++ [.skippedInProgress]) := by
  constructor
  · intro es
    exact (runBuild_inv es initTrace ⟨by decide, by decide⟩).1
  · intro ts files hip
    unfold buildStep updateRAGStart
    dsimp only
    rw [if_pos (by simpa using hip)]
    exact ⟨rfl, rfl, rfl⟩

/-- Witness for C3's amended statement at a concrete in-flight state. -/
theorem updateRAG_serialization_witness :
    (BuildTraceState.mk ⟨true, [], [], 0⟩ 1 1 []).sched.ragUpdateInProgress = true ∧
    (buildStep (BuildTraceState.mk ⟨true, [], [], 0⟩ 1 1 [])
      (.request ["b.py"])).outcomes = [] ++ [.skippedInProgress] :=
  ⟨rfl, (updateRAG_serialization.2 (BuildTraceState.mk ⟨true, [], [], 0⟩ 1 1 [])
    ["b.py"] rfl).2.2⟩

/-- C3 counterexample: issuing a second request while the first pass is in
flight does not block or defer it — the call completes at once with
`skippedInProgress`, and even after the first pass finishes only one build
was ever started; moreover the skipped request's files do not survive either:
the successful pass's close handler clears both pending sets, so b.py is
dropped. -/
theorem updateRAG_second_request_dropped :
    (runBuild initTrace
      [.request ["a.py"], .request ["b.py"], .finish true]).outcomes =
        [.ran ["a.py"] [] true, .skippedInProgress] ∧
    (runBuild initTrace
      [.request ["a.py"], .request ["b.py"], .finish true]).startedCount = 1 ∧
    (runBuild initTrace
      [.request ["a.py"], .request ["b.py"], .finish true]).sched.pendingChangedFiles
        = [] ∧
    (runBuild initTrace
      [.request ["a.py"], .request ["b.py"], .finish true]).sched.pendingDeletedFiles
        = [] := by
  decide

/-! ## Helper lemmas for the scheduler cycle (C2, C4) -/

theorem updateRAG_run {st : SchedState} (b : Bool) (h1 : st.ragUpdateInProgress = false)
    (h2 : ¬(st.pendingChangedFiles = [] ∧ st.pendingDeletedFiles = [])) :
    updateRAG st b = (.ran st.pendingChangedFiles st.pendingDeletedFiles b,
      { st with ragUpdateInProgress := false, pendingChangedFiles := [],
                pendingDeletedFiles := [] }) := by
  unfold updateRAG
  rw [if_neg (by simp [h1]), if_neg h2]

theorem foldl_addSet_eq_nil_iff (base l : List String) :
    l.foldl addSet base = [] ↔ base = [] ∧ l = [] := by
  induction l generalizing base with
  | nil => simp
  | cons x t ih =>
      simp only [List.foldl_cons, ih]
      constructor
      · rintro ⟨h1, -⟩
        exact absurd (mem_addSet_self base x) (h1 ▸ List.not_mem_nil x)
      · rintro ⟨-, h2⟩
        cases h2

theorem foldl_addSet_of_disjoint (l : List String) :
    ∀ base : List String, l.Nodup → (∀ x ∈ l, x ∉ base) →
      l.foldl addSet base = base ++ l := by
  induction l with
  | nil => intro base _ _; simp
  | cons x t ih =>
      intro base hnd hdis
      simp only [List.foldl_cons]
      have hx : x ∉ base := hdis x (List.mem_cons_self x t)
      have hstep : addSet base x = base ++ [x] := by
        unfold addSet
        rw [if_neg hx]
      rw [hstep, ih (base ++ [x]) (List.Nodup.of_cons hnd) ?_]
      · simp
      · intro y hy hmem
        rcases List.mem_append.mp hmem with h | h
        · exact hdis y (List.mem_cons_of_mem x hy) h
        · rw [List.mem_singleton] at h
          subst h
          exact (List.nodup_cons.mp hnd).1 hy

theorem changed_sublist (oldS newS : Snapshot) :
    (compareSnapshots oldS newS).changed.Sublist (newS.files.map Prod.fst) := by
  unfold compareSnapshots
  dsimp only
  induction newS.files with
  | nil => simp
  | cons e t ih =>
      rw [List.filterMap_cons, List.map_cons]
      cases hg : oldS.get e.1 with
      | none =>
          dsimp only
          exact ih.cons e.1
      | some of =>
          dsimp only
          by_cases hne : of.hash ≠ e.2.hash
          · rw [if_pos hne]
            exact List.Sublist.cons₂ e.1 ih
          · rw [if_neg hne]
            exact List.Sublist.cons e.1 ih

theorem added_sublist (oldS newS : Snapshot) :
    (compareSnapshots oldS newS).added.Sublist (newS.files.map Prod.fst) := by
  unfold compareSnapshots
  dsimp only
  exact List.Sublist.map Prod.fst (List.filter_sublist newS.files)

theorem deleted_sublist (oldS newS : Snapshot) :
    (compareSnapshots oldS newS).deleted.Sublist (oldS.files.map Prod.fst) := by
  unfold compareSnapshots
  dsimp only
  exact List.Sublist.map Prod.fst (List.filter_sublist oldS.files)

theorem added_changed_disjoint {oldS newS : Snapshot} (hnew : newS.WF) (p : String)
    (ha : p ∈ (compareSnapshots oldS newS).added) :
    p ∉ (compareSnapshots oldS newS).changed := by
  intro hc
  obtain ⟨-, hnone⟩ := (mem_added_iff oldS newS p).mp ha
  obtain ⟨nf, of, -, hsome, -⟩ := (mem_changed_iff hnew p).mp hc
  rw [hnone] at hsome
  cases hsome

/-! ## C2 — persistence follows the build outcome -/

/-- C2 (amended): in the periodic checker (`checkSnapshotAndUpdate`), on a
tick whose diff against the cached old snapshot is non-empty, the fresh
snapshot is persisted (and becomes the cached `oldSnapshot`) exactly when the
dispatched `updateRAG` pass succeeds, and a failed pass leaves both the
persisted and the cached snapshot untouched; in the startup catch-up,
however, a failed pass does not leave the previous snapshot intact — the
fallback error handler creates and persists a fresh snapshot. -/
theorem snapshot_persist_iff_success :
    (∀ (cs : CycleState) (currentTime interval : Nat) (newSnapshot old : Snapshot)
       (b : Bool),
      intervalPassed cs.sched.lastUpdateTime currentTime interval = true →
      cs.oldSnapshot = some old →
      cs.sched.ragUpdateInProgress = false →
      (compareSnapshots old newSnapshot).added.length +
        (compareSnapshots old newSnapshot).changed.length +
        (compareSnapshots old newSnapshot).deleted.length > 0 →
      ((checkSnapshotAndUpdate cs currentTime interval newSnapshot b).persisted,
       (checkSnapshotAndUpdate cs currentTime interval newSnapshot b).oldSnapshot) =
        (if b = true then (some (saveSnapshot newSnapshot), some newSnapshot)
         else (cs.persisted, cs.oldSnapshot))) ∧
    (∀ (fresh old : Snapshot) (st : SchedState) (fb : Snapshot) (now : Nat),
      (compareSnapshots old fresh).added.length +
        (compareSnapshots old fresh).changed.length +
        (compareSnapshots old fresh).deleted.length > 0 →
      st.ragUpdateInProgress = false →
      (startupCatchUp (some old) fresh st false fb now).persisted =
        some (saveSnapshot fb)) := by
  constructor
  · intro cs currentTime interval newSnapshot old b hg hold hip hne
    have hpend : ¬(List.foldl addSet
        (List.foldl addSet cs.sched.pendingChangedFiles
          (compareSnapshots old newSnapshot).added)
        (compareSnapshots old newSnapshot).changed = [] ∧
        List.foldl addSet cs.sched.pendingDeletedFiles
          (compareSnapshots old newSnapshot).deleted = []) := by
      rintro ⟨hc, hd⟩
      rw [foldl_addSet_eq_nil_iff] at hc hd
      obtain ⟨hc1, hc2⟩ := hc
      rw [foldl_addSet_eq_nil_iff] at hc1
      have h1 := congrArg List.length hc1.2
      have h2 := congrArg List.length hc2
      have h3 := congrArg List.length hd.2
      simp only [List.length_nil] at h1 h2 h3
      omega
    unfold checkSnapshotAndUpdate
    rw [if_pos hg, hold]
    dsimp only
    rw [if_pos hne]
    cases b
    · simp [updateRAG, hip, hpend, UpdateOutcome.resolved, hold]
    · simp [updateRAG, hip, hpend, UpdateOutcome.resolved]
  · intro fresh old st fb now hne hip
    have hpend : ¬(List.foldl addSet
        (List.foldl addSet st.pendingChangedFiles (compareSnapshots old fresh).added)
        (compareSnapshots old fresh).changed = [] ∧
        List.foldl addSet st.pendingDeletedFiles
          (compareSnapshots old fresh).deleted = []) := by
      rintro ⟨hc, hd⟩
      rw [foldl_addSet_eq_nil_iff] at hc hd
      obtain ⟨hc1, hc2⟩ := hc
      rw [foldl_addSet_eq_nil_iff] at hc1
      have h1 := congrArg List.length hc1.2
      have h2 := congrArg List.length hc2
      have h3 := congrArg List.length hd.2
      simp only [List.length_nil] at h1 h2 h3
      omega
    unfold startupCatchUp
    dsimp only
    rw [if_pos hne]
    simp [updateRAG, hip, hpend, UpdateOutcome.resolved]

/-- Witness for C2's amended statement: a concrete non-empty diff, checked
for both a succeeding and a failing pass. -/
theorem snapshot_persist_iff_success_witness :
    ((checkSnapshotAndUpdate
        { oldSnapshot := some c1exOld, persisted := some (saveSnapshot c1exOld),
          sched := initSchedState, snapshotsTaken := 0 }
        0 60 c1exNew false).persisted,
     (checkSnapshotAndUpdate
        { oldSnapshot := some c1exOld, persisted := some (saveSnapshot c1exOld),
          sched := initSchedState, snapshotsTaken := 0 }
        0 60 c1exNew false).oldSnapshot) =
      (some (saveSnapshot c1exOld), some c1exOld) := by
  have h := snapshot_persist_iff_success.1
    { oldSnapshot := some c1exOld, persisted := some (saveSnapshot c1exOld),
      sched := initSchedState, snapshotsTaken := 0 }
    0 60 c1exNew c1exOld false rfl rfl rfl (by decide)
  simpa using h

/-- C2 counterexample: in the startup catch-up, a failed build pass results
in a freshly created snapshot being persisted — the previously persisted
snapshot (the one that was loaded) is not left intact. -/
theorem startup_failed_pass_not_intact :
    (startupCatchUp (some c1exOld) c1exNew initSchedState false c1exNew 9).persisted =
      some (saveSnapshot c1exNew) ∧
    some (saveSnapshot c1exNew) ≠ some (saveSnapshot c1exOld) := by
  constructor
  · decide
  · decide

/-! ## C4 — the one-shot startup catch-up -/

/-- C4: on startup (after a successful RAG init) the one-shot catch-up
behaves as specified: with no persisted snapshot it persists an initial
snapshot and runs no build; with a persisted snapshot and an empty diff it
runs no build; with a non-empty diff it dispatches one build pass whose
changed set is exactly `added ++ changed` and whose deleted set is exactly
`deleted`; and the catch-up phase comes before the periodic checker is
installed. -/
theorem startupCatchUp_spec :
    (∀ (fresh fb : Snapshot) (st : SchedState) (b : Bool) (now : Nat),
      (startupCatchUp none fresh st b fb now).persisted = some (saveSnapshot fresh) ∧
      (startupCatchUp none fresh st b fb now).buildRan = none) ∧
    (∀ (old fresh fb : Snapshot) (st : SchedState) (b : Bool) (now : Nat),
      (compareSnapshots old fresh).added.length +
        (compareSnapshots old fresh).changed.length +
        (compareSnapshots old fresh).deleted.length = 0 →
      (startupCatchUp (some old) fresh st b fb now).buildRan = none ∧
      (startupCatchUp (some old) fresh st b fb now).persisted =
        some (saveSnapshot fresh)) ∧
    (∀ (old fresh fb : Snapshot) (b : Bool) (now : Nat),
      old.WF → fresh.WF →
      (compareSnapshots old fresh).added.length +
        (compareSnapshots old fresh).changed.length +
        (compareSnapshots old fresh).deleted.length > 0 →
      (startupCatchUp (some old) fresh initSchedState b fb now).buildRan =
        some ((compareSnapshots old fresh).added ++ (compareSnapshots old fresh).changed,
              (compareSnapshots old fresh).deleted)) ∧
    List.indexOf StartupPhase.catchUpCheck startupPhases <
      List.indexOf StartupPhase.schedulerSetup startupPhases := by
  refine ⟨?_, ?_, ?_, by decide⟩
  · intro fresh fb st b now
    exact ⟨rfl, rfl⟩
  · intro old fresh fb st b now hz
    unfold startupCatchUp
    dsimp only
    rw [if_neg (by omega)]
    exact ⟨rfl, rfl⟩
  · intro old fresh fb b now hWFo hWFf hne
    have hAnodup : (compareSnapshots old fresh).added.Nodup :=
      List.Nodup.sublist (added_sublist old fresh) hWFf
    have hCnodup : (compareSnapshots old fresh).changed.Nodup :=
      List.Nodup.sublist (changed_sublist old fresh) hWFf
    have hDnodup : (compareSnapshots old fresh).deleted.Nodup :=
      List.Nodup.sublist (deleted_sublist old fresh) hWFo
    have e1 : List.foldl addSet ([] : List String) (compareSnapshots old fresh).added =
        (compareSnapshots old fresh).added := by
      simpa using foldl_addSet_of_disjoint (compareSnapshots old fresh).added []
        hAnodup (by simp)
    have e2 : List.foldl addSet (compareSnapshots old fresh).added
        (compareSnapshots old fresh).changed =
        (compareSnapshots old fresh).added ++ (compareSnapshots old fresh).changed :=
      foldl_addSet_of_disjoint (compareSnapshots old fresh).changed
        (compareSnapshots old fresh).added hCnodup
        (fun x hxC hxA => added_changed_disjoint hWFf x hxA hxC)
    have e3 : List.foldl addSet ([] : List String) (compareSnapshots old fresh).deleted =
        (compareSnapshots old fresh).deleted := by
      simpa using foldl_addSet_of_disjoint (compareSnapshots old fresh).deleted []
        hDnodup (by simp)
    have hpf : ¬(((compareSnapshots old fresh).added = [] ∧
        (compareSnapshots old fresh).changed = []) ∧
        (compareSnapshots old fresh).deleted = []) := by
      rintro ⟨⟨ha, hc⟩, hd⟩
      have h1 := congrArg List.length ha
      have h2 := congrArg List.length hc
      have h3 := congrArg List.length hd
      simp only [List.length_nil] at h1 h2 h3
      omega
    unfold startupCatchUp
    dsimp only
    rw [if_pos hne]
    cases b <;>
      simp [initSchedState, updateRAG, e1, e2, e3, hpf, UpdateOutcome.resolved]

/-- Witness for C4 at the spec's concrete example snapshots: the catch-up
build receives changed = added ++ changed = [c, b] and deleted = []. -/
theorem startupCatchUp_spec_witness :
    c1exOld.WF ∧ c1exNew.WF ∧
    (startupCatchUp (some c1exOld) c1exNew initSchedState true c1exNew 9).buildRan =
      some ((compareSnapshots c1exOld c1exNew).added ++
              (compareSnapshots c1exOld c1exNew).changed,
            (compareSnapshots c1exOld c1exNew).deleted) :=
  ⟨by decide, by decide,
    startupCatchUp_spec.2.2.1 c1exOld c1exNew c1exNew true 9 (by decide) (by decide)
      (by decide)⟩

end BranchCoder
